import Mathlib

/-!
Verification development for the lgi callable bridge (`src/callable.c`).

The file shallowly embeds the parts of `callable.c` that the specification
talks about:

* the native type mapper `get_simple_ffi_type` / `get_ffi_type`,
* the `internal`-flag marking pass of `lgi_callable_create`
  (including `callable_mark_array_length`),
* the call-plan cache logic of `lgi_callable_create`,
* the forward invoker `callable_call` (Lua stack discipline, error path,
  synthetic leading `true`, mutex events),
* the reverse trampoline `closure_callback` (resume semantics, transfer
  warnings, mutex events),
* the event-closure constructor `lgi_gclosure_create`.

External collaborators (the per-type marshallers, libffi, the Lua VM) are
modelled by oracles: per-parameter temporary counts, a native-error slot
outcome, a symbol-resolution/ffi_prep_cif success flag, and a target
invocation outcome.  Machine pointers and the content of marshalled values
are abstracted to tagged symbolic values; the observable structure (order,
count, kind of each produced Lua result, and the order of lock/call events)
is modelled exactly as the C code computes it.
-/

namespace LgiCallable

/-- GITypeTag, the abstract kind of a type descriptor (gitypes.h). -/
inductive GITypeTag where
  | tVoid | tBoolean
  | tInt8 | tUint8 | tInt16 | tUint16 | tInt32 | tUint32 | tInt64 | tUint64
  | tFloat | tDouble | tGtype
  | tUtf8 | tFilename
  | tArray | tInterface | tGlist | tGslist | tGhash | tError | tUnichar
  deriving DecidableEq, Repr

/-- GIArrayType: which array flavour an array type descriptor declares. -/
inductive GIArrayType where
  | atC | atArray | atPtrArray | atByteArray
  deriving DecidableEq, Repr

/-- The kind of a referenced interface info (`g_base_info_get_type` on the
result of `g_type_info_get_interface`). -/
inductive GIInfoKind where
  | kEnum | kFlags | kObject | kInterface | kStruct | kUnion | kOther
  deriving DecidableEq, Repr

/-- Interface info reachable from an interface-tagged type: its kind and,
for enum/flags infos, the declared storage type
(`g_enum_info_get_storage_type`). -/
structure IfaceInfo where
  kind : GIInfoKind
  storage : GITypeTag
  deriving DecidableEq, Repr

/-- A type descriptor (GITypeInfo): tag, pointer-ness, array data
(`g_type_info_get_array_type` / `g_type_info_get_array_length`, the length
index being -1 when absent) and the referenced interface when the tag is
`tInterface`. -/
structure TypeInfo where
  tag : GITypeTag
  isPtr : Bool
  arrayType : Option GIArrayType
  arrayLength : Int
  iface : Option IfaceInfo
  deriving DecidableEq, Repr

/-- The libffi ABI type tags that `callable.c` can produce. -/
inductive FfiType where
  | fvoid | fuint
  | fsint8 | fuint8 | fsint16 | fuint16 | fsint32 | fuint32 | fsint64 | fuint64
  | ffloat | fdouble | fpointer
  deriving DecidableEq, Repr

/-- `get_simple_ffi_type` (callable.c:102): the primitive tag table; `none`
models the C function returning NULL.  `GLIB_SIZEOF_SIZE_T` is taken to be
8, so GTYPE maps to the 64-bit unsigned primitive. -/
def get_simple_ffi_type : GITypeTag → Option FfiType
  | .tVoid => some .fvoid
  | .tBoolean => some .fuint
  | .tInt8 => some .fsint8
  | .tUint8 => some .fuint8
  | .tInt16 => some .fsint16
  | .tUint16 => some .fuint16
  | .tInt32 => some .fsint32
  | .tUint32 => some .fuint32
  | .tInt64 => some .fsint64
  | .tUint64 => some .fuint64
  | .tFloat => some .ffloat
  | .tDouble => some .fdouble
  | .tGtype => some .fuint64
  | _ => none

/-- `get_ffi_type` (callable.c:140): pointer types map to the pointer ABI
type, simple tags go through the primitive table, interface types that are
enums or flags use their storage type, and anything still unresolved
defaults to the pointer ABI type. -/
def get_ffi_type (ti : TypeInfo) : FfiType :=
  let ffi : Option FfiType :=
    if ti.isPtr then some .fpointer else get_simple_ffi_type ti.tag
  let ffi : Option FfiType :=
    match ffi with
    | some f => some f
    | none =>
      if ti.tag = .tInterface then
        match ti.iface with
        | some ii =>
          match ii.kind with
          | .kEnum => get_simple_ffi_type ii.storage
          | .kFlags => get_simple_ffi_type ii.storage
          | _ => none
        | none => none
      else none
  ffi.getD .fpointer

/-- Direction of an argument (GIDirection). -/
inductive GIDirection where
  | din | dout | dinout
  deriving DecidableEq, Repr

/-- Ownership transfer rule (GITransfer). -/
inductive GITransfer where
  | tnothing | tcontainer | teverything
  deriving DecidableEq, Repr

/-- The native ABI slot type derived for a declared argument slot
(callable.c:278): `in` arguments use `get_ffi_type`, everything else is
passed by address. -/
def arg_ffi_slot (dir : GIDirection) (ti : TypeInfo) : FfiType :=
  if dir = .din then get_ffi_type ti else .fpointer

/-- The parameter-to-ABI map as the claim states it (§4.1 of the spec):
pointer for non-`in` directions and indirect types; the enumerated
primitive kinds (boolean, the sized integers, float, double, the
platform-width type-identifier kind) map 1:1; enum and flags kinds map to
the primitive matching their declared storage width; everything else maps
to pointer.  Written from the claim text, to be compared against
`arg_ffi_slot`. -/
def abi_map_per_claim (dir : GIDirection) (ti : TypeInfo) : FfiType :=
  if dir ≠ .din ∨ ti.isPtr then .fpointer
  else
    match ti.tag with
    | .tBoolean => .fuint
    | .tInt8 => .fsint8
    | .tUint8 => .fuint8
    | .tInt16 => .fsint16
    | .tUint16 => .fuint16
    | .tInt32 => .fsint32
    | .tUint32 => .fuint32
    | .tInt64 => .fsint64
    | .tUint64 => .fuint64
    | .tFloat => .ffloat
    | .tDouble => .fdouble
    | .tGtype => .fuint64
    | .tInterface =>
      match ti.iface with
      | some ii =>
        if ii.kind = .kEnum ∨ ii.kind = .kFlags then
          match ii.storage with
          | .tBoolean => .fuint
          | .tInt8 => .fsint8
          | .tUint8 => .fuint8
          | .tInt16 => .fsint16
          | .tUint16 => .fuint16
          | .tInt32 => .fsint32
          | .tUint32 => .fuint32
          | .tInt64 => .fsint64
          | .tUint64 => .fuint64
          | .tFloat => .ffloat
          | .tDouble => .fdouble
          | .tGtype => .fuint64
          | _ => .fpointer
        else .fpointer
      | none => .fpointer
    | _ => .fpointer

/-- The ABI map amended as the code forces: identical to the claim's map
except that the void kind (and an enum/flags storage declared void) maps to
the native void ABI type, not to pointer. -/
def abi_map_amended (dir : GIDirection) (ti : TypeInfo) : FfiType :=
  if dir ≠ .din ∨ ti.isPtr then .fpointer
  else
    match ti.tag with
    | .tVoid => .fvoid
    | .tBoolean => .fuint
    | .tInt8 => .fsint8
    | .tUint8 => .fuint8
    | .tInt16 => .fsint16
    | .tUint16 => .fuint16
    | .tInt32 => .fsint32
    | .tUint32 => .fuint32
    | .tInt64 => .fsint64
    | .tUint64 => .fuint64
    | .tFloat => .ffloat
    | .tDouble => .fdouble
    | .tGtype => .fuint64
    | .tInterface =>
      match ti.iface with
      | some ii =>
        if ii.kind = .kEnum ∨ ii.kind = .kFlags then
          match ii.storage with
          | .tVoid => .fvoid
          | .tBoolean => .fuint
          | .tInt8 => .fsint8
          | .tUint8 => .fuint8
          | .tInt16 => .fsint16
          | .tUint16 => .fuint16
          | .tInt32 => .fsint32
          | .tUint32 => .fuint32
          | .tInt64 => .fsint64
          | .tUint64 => .fuint64
          | .tFloat => .ffloat
          | .tDouble => .fdouble
          | .tGtype => .fuint64
          | _ => .fpointer
        else .fpointer
      | none => .fpointer
    | _ => .fpointer

/-- An argument descriptor as loaded by `lgi_callable_create`
(callable.c:274-277, 283-291): its type, direction, ownership transfer,
closure/destroy companion indices (`g_arg_info_get_closure` /
`g_arg_info_get_destroy`, -1 when absent) and the caller-allocates flag. -/
structure ArgInfo where
  ti : TypeInfo
  dir : GIDirection
  transfer : GITransfer
  closureIdx : Int
  destroyIdx : Int
  callerAllocates : Bool
  deriving DecidableEq, Repr

/-- The description kinds that can reach `lgi_callable_create`
(function / callback / signal / vfunc infos). -/
inductive GIInfoType where
  | function | callback | signal | vfunc
  deriving DecidableEq, Repr

/-- The numeric value of `g_base_info_get_type` for each kind
(GIInfoType enumeration: FUNCTION=1, CALLBACK=2, SIGNAL=13, VFUNC=14). -/
def infoTypeCode : GIInfoType → Nat
  | .function => 1
  | .callback => 2
  | .signal => 13
  | .vfunc => 14

/-- A callable description as consumed by `lgi_callable_create`: the info
kind, fully qualified name, symbol, function flags, the argument list, the
return type and its `caller_owns` transfer.  `canResolveSymbol` and
`ffiPrepOk` are oracles for the outcome of `g_typelib_symbol` and
`ffi_prep_cif`. -/
structure CallableDesc where
  kind : GIInfoType
  fullName : String
  symbol : String
  isMethod : Bool
  isConstructor : Bool
  throwsFlag : Bool
  canResolveSymbol : Bool
  ffiPrepOk : Bool
  ret : TypeInfo
  retTransfer : GITransfer
  args : List ArgInfo
  deriving DecidableEq, Repr

/-- Set the flag at integer index `arg` of an index-to-Bool flag map
(models `callable->params[arg].internal = TRUE`). -/
def setIdx (arg : Int) (f : Nat → Bool) : Nat → Bool :=
  fun j => if (j : Int) = arg then true else f j

/-- `callable_mark_array_length` (callable.c:172): if the type is a C-style
array with a declared length index in `[0, nargs)`, mark that parameter
internal. -/
def callable_mark_array_length (nargs : Nat) (ti : TypeInfo) (f : Nat → Bool) :
    Nat → Bool :=
  if ti.tag = .tArray ∧ ti.arrayType = some .atC then
    if 0 ≤ ti.arrayLength ∧ ti.arrayLength < (nargs : Int) then
      setIdx ti.arrayLength f
    else f
  else f

/-- The per-argument marking performed inside the argument loop of
`lgi_callable_create` (callable.c:281-291): closure user-data index, then
destroy-notify index (both only when strictly positive and below `nargs`),
then the argument type's own array length index. -/
def mark_param_companions (nargs : Nat) (a : ArgInfo) (f : Nat → Bool) :
    Nat → Bool :=
  let f1 := if 0 < a.closureIdx ∧ a.closureIdx < (nargs : Int) then
    setIdx a.closureIdx f else f
  let f2 := if 0 < a.destroyIdx ∧ a.destroyIdx < (nargs : Int) then
    setIdx a.destroyIdx f1 else f1
  callable_mark_array_length nargs a.ti f2

/-- The complete `internal`-flag computation of `lgi_callable_create`
(callable.c:252-292): clear all flags, mark the return type's array length
parameter, then walk the arguments marking closure/destroy companions and
array length parameters. -/
def build_internal_flags (d : CallableDesc) : Nat → Bool :=
  let n := d.args.length
  d.args.foldl (fun f a => mark_param_companions n a f)
    (callable_mark_array_length n d.ret (fun _ => false))

/-- The internal set as the claim states it: the parameter at each C-style
array length index (of the return type or of any parameter's type), plus
each closure-user-data and destroy-notify companion index declared by any
parameter; no others.  Written from the claim text, to be compared against
`build_internal_flags`. -/
def internal_per_claim (d : CallableDesc) (i : Nat) : Bool :=
  let n := d.args.length
  let arrayAt (ti : TypeInfo) : Bool :=
    ti.tag = .tArray ∧ ti.arrayType = some .atC ∧ ti.arrayLength = (i : Int)
  decide (i < n) &&
    (arrayAt d.ret || d.args.any (fun a => arrayAt a.ti) ||
      d.args.any (fun a => a.closureIdx = (i : Int) ∨ a.destroyIdx = (i : Int)))

/-- A built call plan as stored in the cache.  `id` is the allocation
identity of the Lua userdata (two plans are the same object iff their ids
are equal). -/
structure Plan where
  id : Nat
  hasSelf : Bool
  throws : Bool
  nargs : Nat
  deriving DecidableEq, Repr

/-- State of the callable cache: the registry table keyed by the composite
key string, plus an allocation counter giving fresh plan identities. -/
structure BuildSt where
  cache : List (List Char × Plan)
  nextId : Nat
  deriving DecidableEq, Repr

/-- Build failure, as raised by `luaL_error` in `lgi_callable_create`:
either the symbol could not be resolved ("could not locate <key>(<symbol>)",
callable.c:244) or `ffi_prep_cif` rejected the layout
("ffi_prep_cif for `<name>' failed", callable.c:304). -/
inductive BuildErr where
  | symbolNotFound (key : List Char) (symbol : String)
  | cifFailed (name : String)
  deriving DecidableEq, Repr

/-- The composite cache key built at callable.c:199-201: the decimal info
type code, a colon, and the fully qualified name, concatenated into one
Lua string (modelled as its character list). -/
def descKey (d : CallableDesc) : List Char :=
  (Nat.repr (infoTypeCode d.kind)).data ++ ':' :: d.fullName.data

/-- Association lookup in the cache table (`lua_gettable` on the cache). -/
def findCache (k : List Char) : List (List Char × Plan) → Option Plan
  | [] => none
  | (k', p) :: rest => if k' = k then some p else findCache k rest

/-- `has_self` as determined by callable.c:228-250: methods that are not
constructors, and signals. -/
def desc_has_self (d : CallableDesc) : Bool :=
  (d.kind = .function ∧ d.isMethod ∧ ¬d.isConstructor) ∨ d.kind = .signal

/-- `throws` as determined by callable.c:236-237: only function infos with
the THROWS flag set it. -/
def desc_throws (d : CallableDesc) : Bool :=
  d.kind = .function ∧ d.throwsFlag

/-- The cache/build skeleton of `lgi_callable_create` (callable.c:185-317):
look up the composite key and return the cached plan if present; otherwise
build, failing (without touching the cache) when symbol resolution fails
for a function info or when `ffi_prep_cif` rejects the layout, and on
success store the freshly allocated plan under the key. -/
def lgi_callable_create (d : CallableDesc) (s : BuildSt) :
    Except BuildErr (Plan × BuildSt) :=
  match findCache (descKey d) s.cache with
  | some p => .ok (p, s)
  | none =>
    if d.kind = .function ∧ ¬d.canResolveSymbol then
      .error (.symbolNotFound (descKey d) d.symbol)
    else if ¬d.ffiPrepOk then
      .error (.cifFailed d.fullName)
    else
      let p : Plan :=
        { id := s.nextId, hasSelf := desc_has_self d, throws := desc_throws d,
          nargs := d.args.length }
      .ok (p, { cache := (descKey d, p) :: s.cache, nextId := s.nextId + 1 })

/-! ## Forward invoker (`callable_call`) -/

/-- A parameter as seen by the invocation paths: the `internal` flag,
direction and transfer from the built `Param`, plus per-invocation
marshalling oracles: `callerAlloc` (the parameter is caller-allocates and
`lgi_marshal_arg_2c_caller_alloc` handles its type), `inTemps` (number of
stack temporaries `lgi_marshal_arg_2c` leaves when marshalling it Lua→C in
the forward path) and `outTemps` (temporaries left when marshalling it
Lua→C in the trampoline's output path). -/
structure CParam where
  internal : Bool
  dir : GIDirection
  transfer : GITransfer
  callerAlloc : Bool
  inTemps : Nat
  outTemps : Nat
  deriving DecidableEq, Repr

/-- The per-invocation view of a built callable: flags of the `Callable`
structure plus its parameter list and a `retTemps` oracle (temporaries left
by marshalling the return value Lua→C in the trampoline). -/
structure CCallable where
  hasSelf : Bool
  throws : Bool
  retVoid : Bool
  params : List CParam
  retTemps : Nat
  deriving DecidableEq, Repr

/-- Observable events of an invocation, in order: mutex operations, the
native call, and each marshalling/diagnostic step. -/
inductive Ev where
  | unlockEv | nativeEv | lockEv
  | selfIn | argIn (i : Nat) | allocOut (i : Nat)
  | retOut | argOut (i : Nat) | reuseOut (i : Nat)
  | invokeEv
  | selfToLua | argToLua (i : Nat)
  | retFromLua | argFromLua (i : Nat)
  | warnEv (i : Nat) | dropEv (i : Nat) | warnRetEv | dropRetEv
  | writeErrEv | schedDestroyEv
  deriving DecidableEq, Repr

/-- Symbolic Lua stack values relevant to the forward invoker's result:
marshalling temporaries, pre-created caller-allocated outputs, the
marshalled return value, marshalled output parameters, booleans pushed by
the error/synthetic-result code, and the error message/code. -/
inductive LV where
  | temp (i : Nat)
  | callerAlloc (i : Nat)
  | retV
  | outV (i : Nat)
  | boolV (b : Bool)
  | msgV (m : String)
  | codeV (c : Int)
  deriving DecidableEq, Repr

/-- Forward-invoker state: the Lua stack above the argument slots (head =
top), the temporary/result counter `nret`, the caller-allocated counter,
and the event trace. -/
structure FwdSt where
  stack : List LV
  nret : Nat
  ca : Nat
  tr : List Ev
  deriving DecidableEq, Repr

/-- Push a value and move it below the top `n` stack entries
(`lua_insert (L, -n-1)` after a push). -/
def insertBelow (n : Nat) (v : LV) (s : List LV) : List LV :=
  s.take n ++ v :: s.drop n

/-- One iteration of the input-marshalling loop of `callable_call`
(callable.c:436-464): skip internal parameters; marshal non-`out`
parameters Lua→C accumulating temporaries; pre-create caller-allocated
`out` structures and slide them below the temporaries. -/
def fwd_in_step (st : FwdSt) (ip : Nat × CParam) : FwdSt :=
  let i := ip.1; let p := ip.2
  if p.internal then st
  else if p.dir ≠ .dout then
    { st with stack := List.replicate p.inTemps (LV.temp i) ++ st.stack,
              nret := st.nret + p.inTemps, tr := st.tr ++ [Ev.argIn i] }
  else if p.callerAlloc then
    { st with stack := insertBelow st.nret (LV.callerAlloc i) st.stack,
              ca := st.ca + 1, tr := st.tr ++ [Ev.allocOut i] }
  else st

/-- The input-marshalling loop over the indexed parameter list. -/
def fwd_in_phase : List (Nat × CParam) → FwdSt → FwdSt
  | [], st => st
  | ip :: l, st => fwd_in_phase l (fwd_in_step st ip)

/-- One iteration of the output-marshalling loop of `callable_call`
(callable.c:516-538): skip internal and `in` parameters; caller-allocated
outputs are already on the stack (just account for them); others are
marshalled C→Lua and slid below the remaining caller-allocated values. -/
def fwd_out_step (st : FwdSt) (ip : Nat × CParam) : FwdSt :=
  let i := ip.1; let p := ip.2
  if p.internal ∨ p.dir = .din then st
  else if p.callerAlloc then
    { st with nret := st.nret + 1, ca := st.ca - 1, tr := st.tr ++ [Ev.reuseOut i] }
  else
    { st with stack := insertBelow st.ca (LV.outV i) st.stack,
              nret := st.nret + 1, tr := st.tr ++ [Ev.argOut i] }

/-- The output-marshalling loop over the indexed parameter list. -/
def fwd_out_phase : List (Nat × CParam) → FwdSt → FwdSt
  | [], st => st
  | ip :: l, st => fwd_out_phase l (fwd_out_step st ip)

/-- Result of a forward invocation: the Lua values returned to the caller
(first result first) and the event trace. -/
structure FwdRes where
  results : List LV
  tr : List Ev
  deriving DecidableEq, Repr

/-- `callable_call` (callable.c:363-551): marshal `self` and the inputs,
release the mutex, perform the native call, re-acquire the mutex, pop the
marshalling temporaries, marshal the return value, and either return the
error triple (when the callee populated the error slot) or marshal the
outputs, appending a synthetic `true` when a throwing callable produced no
other result.  `err` is the oracle for the callee writing the GError slot. -/
def callable_call (c : CCallable) (err : Option (String × Int)) : FwdRes :=
  let st0 : FwdSt :=
    { stack := [], nret := 0, ca := 0,
      tr := if c.hasSelf then [Ev.selfIn] else [] }
  let st1 := fwd_in_phase c.params.enum st0
  let st2 := { st1 with tr := st1.tr ++ [Ev.unlockEv, Ev.nativeEv, Ev.lockEv] }
  let st3 := { st2 with stack := st2.stack.drop st2.nret, nret := 0 }
  let st4 :=
    if c.retVoid then st3
    else { st3 with stack := insertBelow st3.ca LV.retV st3.stack, nret := 1,
                    tr := st3.tr ++ [Ev.retOut] }
  match err with
  | some mk =>
    let st5 :=
      if st4.nret = 0 then
        { st4 with stack := LV.boolV false :: st4.stack, nret := 1 }
      else st4
    let stack := LV.codeV mk.2 :: LV.msgV mk.1 :: st5.stack
    { results := (stack.take (st5.nret + 2)).reverse, tr := st5.tr }
  | none =>
    let st5 := fwd_out_phase c.params.enum st4
    let st6 :=
      if st5.nret = 0 ∧ c.throws then
        { st5 with stack := LV.boolV true :: st5.stack, nret := 1 }
      else st5
    { results := (st6.stack.take st6.nret).reverse, tr := st6.tr }

/-! ## Reverse trampoline (`closure_callback`) -/

/-- Outcome of the dynamic target when invoked/resumed by the trampoline:
normal return, a coroutine yield, or a failure with a message. -/
inductive Outcome where
  | ok
  | yield
  | err (m : String)
  deriving DecidableEq, Repr

/-- The Lua 5.1 error message for a yield crossing a C-call boundary
(what `lua_call`/`lua_pcall` turn a yield of a plain-function target into). -/
def yieldBoundaryMsg : String := "attempt to yield across metamethod/C-call boundary"

/-- The invocation step of `closure_callback` (callable.c:685-706).
`call = true` means the target is called (`lua_pcall` when the callable
throws, `lua_call` otherwise); `call = false` means the target thread is
resumed.  `.inl m` models an error propagating out of `closure_callback`
by longjmp (`lua_error`, or an unprotected `lua_call` failing); `.inr none`
models `res == 0` (including a resume that yielded, callable.c:697-700);
`.inr (some m)` models a captured nonzero `res`. -/
def run_target (call throws : Bool) : Outcome → Sum String (Option String)
  | .ok => .inr none
  | .yield =>
    if call then
      if throws then .inr (some yieldBoundaryMsg) else .inl yieldBoundaryMsg
    else .inr none
  | .err m =>
    if throws then .inr (some m) else .inl m

/-- Events of the trampoline's input marshalling (callable.c:673-683):
non-internal, non-`out` parameters marshalled C→Lua in declared order. -/
def cb_in_evs : List (Nat × CParam) → List Ev
  | [] => []
  | ip :: l =>
    (if ¬ip.2.internal ∧ ip.2.dir ≠ .dout then [Ev.argToLua ip.1] else []) ++
      cb_in_evs l

/-- Events of the trampoline's output marshalling (callable.c:731-751):
non-internal, non-`in` parameters marshalled Lua→C in declared order; when
the marshaller leaves `outTemps ≠ 0` temporaries (an owned representation
that the `transfer none` slot cannot consume), a warning is logged and the
excess is popped, then the loop continues. -/
def cb_out_evs : List (Nat × CParam) → List Ev
  | [] => []
  | ip :: l =>
    (if ¬ip.2.internal ∧ ip.2.dir ≠ .din then
      [Ev.argFromLua ip.1] ++
        (if ip.2.outTemps ≠ 0 then [Ev.warnEv ip.1, Ev.dropEv ip.1] else [])
    else []) ++ cb_out_evs l

/-- Result of one trampoline invocation: `raised` is the error re-raised in
the calling context by `lua_error` (the invocation never reaches its normal
exit in that case), `errSlot` is the GError written through the trailing
error slot (`g_set_error_literal` with code 1, callable.c:756-759), and
`tr` the event trace. -/
structure CbRes where
  raised : Option String
  errSlot : Option (String × Nat)
  tr : List Ev
  deriving DecidableEq, Repr

/-- `closure_callback` (callable.c:632-776): acquire the mutex
(`callback_prepare_call`), marshal `self` and the input arguments C→Lua,
invoke or resume the target, then on success marshal the return value and
output parameters Lua→C (warning about and discarding unconsumed
temporaries), or on a captured failure write the synthesized GError through
the trailing slot; schedule autodestruction if requested and release the
mutex.  A failure that is not captured leaves by `lua_error` without
releasing the mutex. -/
def closure_callback (c : CCallable) (call : Bool) (oc : Outcome)
    (autodestroy : Bool) : CbRes :=
  let tr0 := [Ev.lockEv] ++ (if c.hasSelf then [Ev.selfToLua] else []) ++
    cb_in_evs c.params.enum
  match run_target call c.throws oc with
  | .inl m => { raised := some m, errSlot := none, tr := tr0 ++ [Ev.invokeEv] }
  | .inr res =>
    let trD := if autodestroy then [Ev.schedDestroyEv] else []
    match res with
    | none =>
      let trR :=
        if ¬c.retVoid then
          [Ev.retFromLua] ++
            (if c.retTemps ≠ 0 then [Ev.warnRetEv, Ev.dropRetEv] else [])
        else []
      { raised := none, errSlot := none,
        tr := tr0 ++ [Ev.invokeEv] ++ trR ++ cb_out_evs c.params.enum ++
          trD ++ [Ev.unlockEv] }
    | some m =>
      { raised := none, errSlot := some (m, 1),
        tr := tr0 ++ [Ev.invokeEv, Ev.writeErrEv] ++ trD ++ [Ev.unlockEv] }

/-! ## Event closures (`lgi_gclosure_create`, `callable.closure`) -/

/-- Lua value types (`lua_type` result). -/
inductive LuaType where
  | tnil | tboolean | tnumber | tstring
  | tfunction | ttable | tuserdata | tthread | tlightuserdata
  deriving DecidableEq, Repr

/-- `callback_create` (callable.c:561-584) stores `LUA_NOREF` as the target
reference exactly when the target is a thread; such a target is later
resumed instead of called (`callback_prepare_call`, callable.c:599).
`true` means call mode, `false` means resume mode. -/
def callback_create_call_mode (t : LuaType) : Bool :=
  ¬(t = .tthread)

/-- A created GClosure, reduced to its callback's invocation mode. -/
structure GClosureM where
  callMode : Bool
  deriving DecidableEq, Repr

/-- `lgi_gclosure_create` (callable.c:875-904): reject any target whose Lua
type is not function, table or userdata with a type error; otherwise build
the closure around a `callback_create` target. -/
def lgi_gclosure_create (t : LuaType) : Except String GClosureM :=
  if t = .tfunction ∨ t = .ttable ∨ t = .tuserdata then
    .ok { callMode := callback_create_call_mode t }
  else
    .error "typerror"

/-! ## Internal-flag marking: characterization -/

/-- The indices that one argument's companion processing marks internal. -/
def paramMarks (n : Nat) (a : ArgInfo) (i : Nat) : Prop :=
  (a.closureIdx = (i : Int) ∧ 0 < (i : Int) ∧ (i : Int) < (n : Int)) ∨
  (a.destroyIdx = (i : Int) ∧ 0 < (i : Int) ∧ (i : Int) < (n : Int)) ∨
  (a.ti.tag = .tArray ∧ a.ti.arrayType = some .atC ∧
    a.ti.arrayLength = (i : Int) ∧ (i : Int) < (n : Int))

instance (n a i) : Decidable (paramMarks n a i) := by
  unfold paramMarks; infer_instance

lemma setIdx_true_iff (arg : Int) (f : Nat → Bool) (i : Nat) :
    setIdx arg f i = true ↔ (i : Int) = arg ∨ f i = true := by
  unfold setIdx; split <;> simp_all

lemma callable_mark_array_length_true_iff (n : Nat) (ti : TypeInfo)
    (f : Nat → Bool) (i : Nat) :
    callable_mark_array_length n ti f i = true ↔
      (ti.tag = .tArray ∧ ti.arrayType = some .atC ∧
        ti.arrayLength = (i : Int) ∧ (i : Int) < (n : Int)) ∨ f i = true := by
  unfold callable_mark_array_length
  by_cases h1 : ti.tag = .tArray ∧ ti.arrayType = some .atC
  · rw [if_pos h1]
    by_cases h2 : 0 ≤ ti.arrayLength ∧ ti.arrayLength < (n : Int)
    · rw [if_pos h2, setIdx_true_iff]
      constructor
      · rintro (h | h)
        · exact Or.inl ⟨h1.1, h1.2, by omega, by omega⟩
        · exact Or.inr h
      · rintro (⟨_, _, h3, h4⟩ | h)
        · exact Or.inl (by omega)
        · exact Or.inr h
    · rw [if_neg h2]
      constructor
      · exact Or.inr
      · rintro (⟨_, _, h3, h4⟩ | h)
        · exact absurd ⟨by omega, by omega⟩ h2
        · exact h
  · rw [if_neg h1]
    constructor
    · exact Or.inr
    · rintro (⟨ht, ha, _⟩ | h)
      · exact absurd ⟨ht, ha⟩ h1
      · exact h

lemma condSetIdx_true_iff (c : Prop) [Decidable c] (arg : Int)
    (f : Nat → Bool) (i : Nat) :
    (if c then setIdx arg f else f) i = true ↔
      (c ∧ (i : Int) = arg) ∨ f i = true := by
  split
  · rw [setIdx_true_iff]; tauto
  · tauto

lemma mark_param_companions_true_iff (n : Nat) (a : ArgInfo) (f : Nat → Bool)
    (i : Nat) :
    mark_param_companions n a f i = true ↔ paramMarks n a i ∨ f i = true := by
  unfold mark_param_companions paramMarks
  rw [callable_mark_array_length_true_iff, condSetIdx_true_iff,
    condSetIdx_true_iff]
  constructor
  · rintro (harr | (⟨⟨h0, hn⟩, he⟩ | (⟨⟨h0, hn⟩, he⟩ | hf)))
    · exact Or.inl (Or.inr (Or.inr harr))
    · exact Or.inl (Or.inr (Or.inl ⟨by omega, by omega, by omega⟩))
    · exact Or.inl (Or.inl ⟨by omega, by omega, by omega⟩)
    · exact Or.inr hf
  · rintro ((⟨he, h0, hn⟩ | (⟨he, h0, hn⟩ | harr)) | hf)
    · exact Or.inr (Or.inr (Or.inl ⟨⟨by omega, by omega⟩, by omega⟩))
    · exact Or.inr (Or.inl ⟨⟨by omega, by omega⟩, by omega⟩)
    · exact Or.inl harr
    · exact Or.inr (Or.inr (Or.inr hf))

lemma foldl_marks_true_iff (n : Nat) (l : List ArgInfo) :
    ∀ (f : Nat → Bool) (i : Nat),
      (l.foldl (fun f a => mark_param_companions n a f) f) i = true ↔
        (∃ a ∈ l, paramMarks n a i) ∨ f i = true := by
  induction l with
  | nil => simp
  | cons a l ih =>
    intro f i
    rw [List.foldl_cons, ih, mark_param_companions_true_iff]
    simp only [List.mem_cons]
    constructor
    · rintro (⟨b, hb, hm⟩ | (hm | hf))
      · exact Or.inl ⟨b, Or.inr hb, hm⟩
      · exact Or.inl ⟨a, Or.inl rfl, hm⟩
      · exact Or.inr hf
    · rintro (⟨b, (rfl | hb), hm⟩ | hf)
      · exact Or.inr (Or.inl hm)
      · exact Or.inl ⟨b, hb, hm⟩
      · exact Or.inr (Or.inr hf)

/-- A non-pointer type descriptor with the given tag and no array or
interface data. -/
def tiPlain (t : GITypeTag) : TypeInfo :=
  { tag := t, isPtr := false, arrayType := none, arrayLength := -1, iface := none }

/-- A two-argument callback description whose second argument declares its
closure-user-data companion at index 0 (legal in GObject-introspection:
`g_arg_info_get_closure` may return 0). -/
def c1demo : CallableDesc :=
  { kind := .callback, fullName := "Test.Cb", symbol := "",
    isMethod := false, isConstructor := false, throwsFlag := false,
    canResolveSymbol := true, ffiPrepOk := true,
    ret := tiPlain .tVoid, retTransfer := .tnothing,
    args := [{ ti := tiPlain .tInt32, dir := .din, transfer := .tnothing,
               closureIdx := -1, destroyIdx := -1, callerAllocates := false },
             { ti := { tag := .tInterface, isPtr := true, arrayType := none,
                       arrayLength := -1, iface := some ⟨.kOther, .tVoid⟩ },
               dir := .din, transfer := .tnothing,
               closureIdx := 0, destroyIdx := -1, callerAllocates := false }] }

/-- C1 (counterexample): the claim says each closure-user-data companion
index is marked internal, but `lgi_callable_create` guards the closure and
destroy marks with `arg > 0` (callable.c:284, 287), so a companion index of
0 is never marked: in `c1demo` parameter 1 declares closure index 0, the
claim's set contains 0, yet the built flags leave parameter 0 external. -/
theorem c1_counterexample :
    internal_per_claim c1demo 0 = true ∧ build_internal_flags c1demo 0 = false := by
  decide

/-- C1 (amended): building the plan marks `internal` exactly the parameters
at in-range C-array length indices (of the return type or of any
parameter's type) and the closure-user-data / destroy-notify companion
indices that are *strictly positive* and in range; forward references are
covered (the characterization quantifies over the whole argument list) and
marking is idempotent (the flag is a set-to-true), and no other parameter
is marked. -/
theorem c1_internal_marks (d : CallableDesc) (i : Nat) :
    build_internal_flags d i = true ↔
      ((d.ret.tag = .tArray ∧ d.ret.arrayType = some .atC ∧
          d.ret.arrayLength = (i : Int) ∧ i < d.args.length) ∨
       (∃ a ∈ d.args, a.ti.tag = .tArray ∧ a.ti.arrayType = some .atC ∧
          a.ti.arrayLength = (i : Int) ∧ i < d.args.length) ∨
       (∃ a ∈ d.args, (a.closureIdx = (i : Int) ∨ a.destroyIdx = (i : Int)) ∧
          0 < i ∧ i < d.args.length)) := by
  simp only [build_internal_flags]
  rw [foldl_marks_true_iff, callable_mark_array_length_true_iff]
  simp only [Bool.false_eq_true, or_false, paramMarks]
  constructor
  · rintro (⟨a, ha, ⟨he, h0, hn⟩ | ⟨he, h0, hn⟩ | ⟨ht, hat, hal, hn⟩⟩ |
      ⟨ht, hat, hal, hn⟩)
    · exact Or.inr (Or.inr ⟨a, ha, Or.inl he, by omega, by omega⟩)
    · exact Or.inr (Or.inr ⟨a, ha, Or.inr he, by omega, by omega⟩)
    · exact Or.inr (Or.inl ⟨a, ha, ht, hat, hal, by omega⟩)
    · exact Or.inl ⟨ht, hat, hal, by omega⟩
  · rintro (⟨ht, hat, hal, hn⟩ | ⟨a, ha, ht, hat, hal, hn⟩ |
      ⟨a, ha, he | he, h0, hn⟩)
    · exact Or.inr ⟨ht, hat, hal, by omega⟩
    · exact Or.inl ⟨a, ha, Or.inr (Or.inr ⟨ht, hat, hal, by omega⟩)⟩
    · exact Or.inl ⟨a, ha, Or.inl ⟨he, by omega, by omega⟩⟩
    · exact Or.inl ⟨a, ha, Or.inr (Or.inl ⟨he, by omega, by omega⟩)⟩

/-- C3 (counterexample): a non-pointer parameter of the void kind with
direction `in` is mapped by `get_ffi_type` to the native void ABI type
(`get_simple_ffi_type` handles VOID, callable.c:113), while the claim's map
sends every kind outside its enumerated primitives to the generic pointer
type. -/
theorem c3_counterexample :
    arg_ffi_slot .din (tiPlain .tVoid) = .fvoid ∧
    abi_map_per_claim .din (tiPlain .tVoid) = .fpointer := by
  decide

/-- C3 (amended): the derived native ABI slot type of every parameter
agrees with the claim's map amended in one point: the void kind (and an
enum/flags storage declared void) maps to the native void type, not to the
generic pointer.  In particular the mapping is total — no error is raised
for any type kind. -/
theorem c3_abi_map (dir : GIDirection) (ti : TypeInfo) :
    arg_ffi_slot dir ti = abi_map_amended dir ti := by
  rcases ti with ⟨tag, ptr, arr, len, ifz⟩
  cases dir <;> cases ptr <;> cases tag <;>
    first
      | rfl
      | (rcases ifz with _ | ⟨k, st⟩ <;>
          first
            | rfl
            | (cases k <;> first | rfl | (cases st <;> rfl)))

/-- C10: the event-closure constructor accepts exactly function, table and
userdata targets, raising a type error for everything else — in particular
a coroutine (thread) target is rejected, even though the callback machinery
itself supports resume-mode (thread) targets
(`callback_create_call_mode .tthread = false`). -/
theorem c10_closure_target_kinds :
    (∀ t : LuaType, (lgi_gclosure_create t).isOk = true ↔
      (t = .tfunction ∨ t = .ttable ∨ t = .tuserdata)) ∧
    (lgi_gclosure_create .tthread).isOk = false ∧
    callback_create_call_mode .tthread = false := by
  refine ⟨fun t => ?_, by decide, by decide⟩
  cases t <;> decide

/-! ## Forward invoker: closed forms -/

/-- Marshalling temporaries accumulated by the input loop (most recent on
top). -/
def in_temps_of : List (Nat × CParam) → List LV
  | [] => []
  | ip :: l =>
    in_temps_of l ++
      (if ¬ip.2.internal ∧ ip.2.dir ≠ .dout then
        List.replicate ip.2.inTemps (LV.temp ip.1)
      else [])

/-- Caller-allocated output values pre-created by the input loop (most
recent on top). -/
def cas_of : List (Nat × CParam) → List LV
  | [] => []
  | ip :: l =>
    cas_of l ++
      (if ¬ip.2.internal ∧ ip.2.dir = .dout ∧ ip.2.callerAlloc then
        [LV.callerAlloc ip.1]
      else [])

/-- Output values accumulated by the output loop, in reverse declaration
order (most recently produced on top). -/
def out_vals_of : List (Nat × CParam) → List LV
  | [] => []
  | ip :: l =>
    out_vals_of l ++
      (if ¬ip.2.internal ∧ ip.2.dir ≠ .din then
        [if ip.2.callerAlloc then LV.callerAlloc ip.1 else LV.outV ip.1]
      else [])

/-- Events of the forward input loop, in declaration order. -/
def fwd_in_evs : List (Nat × CParam) → List Ev
  | [] => []
  | ip :: l =>
    (if ip.2.internal then []
     else if ip.2.dir ≠ .dout then [Ev.argIn ip.1]
     else if ip.2.callerAlloc then [Ev.allocOut ip.1]
     else []) ++ fwd_in_evs l

/-- Events of the forward output loop, in declaration order. -/
def fwd_out_evs : List (Nat × CParam) → List Ev
  | [] => []
  | ip :: l =>
    (if ip.2.internal ∨ ip.2.dir = .din then []
     else if ip.2.callerAlloc then [Ev.reuseOut ip.1]
     else [Ev.argOut ip.1]) ++ fwd_out_evs l

lemma insertBelow_exact (T C : List LV) (v : LV) :
    insertBelow T.length v (T ++ C) = T ++ v :: C := by
  unfold insertBelow
  rw [List.take_left, List.drop_left]

lemma fwd_in_phase_spec (l : List (Nat × CParam)) :
    ∀ (T C : List LV) (tr : List Ev),
      fwd_in_phase l ⟨T ++ C, T.length, C.length, tr⟩ =
        ⟨(in_temps_of l ++ T) ++ (cas_of l ++ C),
          (in_temps_of l ++ T).length, (cas_of l ++ C).length,
          tr ++ fwd_in_evs l⟩ := by
  induction l with
  | nil =>
    intro T C tr
    simp [fwd_in_phase, in_temps_of, cas_of, fwd_in_evs]
  | cons ip l ih =>
    intro T C tr
    simp only [fwd_in_phase, in_temps_of, cas_of, fwd_in_evs]
    unfold fwd_in_step
    by_cases h1 : ip.2.internal = true
    · rw [if_pos h1]
      simpa [h1] using ih T C tr
    · rw [if_neg h1]
      by_cases h2 : ip.2.dir = .dout
      · rw [if_neg (by simpa using h2)]
        by_cases h3 : ip.2.callerAlloc = true
        · rw [if_pos h3]
          have hins : insertBelow T.length (LV.callerAlloc ip.1) (T ++ C) =
              T ++ LV.callerAlloc ip.1 :: C := insertBelow_exact T C _
          have := ih T (LV.callerAlloc ip.1 :: C) (tr ++ [Ev.allocOut ip.1])
          simp only [List.length_cons] at this
          simpa [h1, h2, h3, hins, List.append_assoc] using this
        · rw [if_neg h3]
          have := ih T C tr
          simpa [h1, h2, h3] using this
      · rw [if_pos (by simpa using h2)]
        have := ih (List.replicate ip.2.inTemps (LV.temp ip.1) ++ T) C
          (tr ++ [Ev.argIn ip.1])
        simp only [List.length_append, List.length_replicate] at this
        simpa [h1, h2, Nat.add_comm, List.append_assoc] using this

lemma fwd_out_phase_spec (l : List (Nat × CParam)) :
    ∀ (B : List LV) (n : Nat) (tr : List Ev),
      (∀ ip ∈ l, ip.2.callerAlloc = true → ip.2.dir = .dout) →
      fwd_out_phase l ⟨cas_of l ++ B, n, (cas_of l).length, tr⟩ =
        ⟨out_vals_of l ++ B, n + (out_vals_of l).length, 0,
          tr ++ fwd_out_evs l⟩ := by
  induction l with
  | nil =>
    intro B n tr _
    simp [fwd_out_phase, cas_of, out_vals_of, fwd_out_evs]
  | cons ip l ih =>
    intro B n tr hwf
    have hwf' : ∀ jp ∈ l, jp.2.callerAlloc = true → jp.2.dir = .dout :=
      fun jp hjp => hwf jp (List.mem_cons_of_mem _ hjp)
    simp only [fwd_out_phase, cas_of, out_vals_of, fwd_out_evs]
    unfold fwd_out_step
    by_cases h1 : ip.2.internal = true ∨ ip.2.dir = .din
    · rw [if_pos h1]
      rcases h1 with h | h
      · simpa [h] using ih B n tr hwf'
      · simpa [h] using ih B n tr hwf'
    · rw [if_neg h1]
      push_neg at h1
      obtain ⟨hint, hdin⟩ := h1
      have hif : ip.2.internal = false := by simpa using hint
      by_cases h3 : ip.2.callerAlloc = true
      · rw [if_pos h3]
        have hdout : ip.2.dir = .dout := hwf ip (List.mem_cons_self _ _) h3
        have := ih (LV.callerAlloc ip.1 :: B) (n + 1) (tr ++ [Ev.reuseOut ip.1]) hwf'
        simpa [hif, hdout, hdin, h3, List.append_assoc, Nat.add_comm,
          Nat.add_left_comm, Nat.add_assoc] using this
      · rw [if_neg h3]
        have hins : insertBelow (cas_of l).length (LV.outV ip.1)
            (cas_of l ++ B) = cas_of l ++ LV.outV ip.1 :: B :=
          insertBelow_exact _ _ _
        have := ih (LV.outV ip.1 :: B) (n + 1) (tr ++ [Ev.argOut ip.1]) hwf'
        simpa [hif, hdin, h3, hins, List.append_assoc, Nat.add_comm,
          Nat.add_left_comm, Nat.add_assoc] using this

lemma callable_call_some (c : CCallable) (m : String) (k : Int) :
    callable_call c (some (m, k)) =
      { results :=
          if c.retVoid then [LV.boolV false, LV.msgV m, LV.codeV k]
          else ((cas_of c.params.enum ++ [LV.retV]).take 1).reverse ++
            [LV.msgV m, LV.codeV k],
        tr := (if c.hasSelf then [Ev.selfIn] else []) ++
          fwd_in_evs c.params.enum ++ [Ev.unlockEv, Ev.nativeEv, Ev.lockEv] ++
          (if c.retVoid then [] else [Ev.retOut]) } := by
  unfold callable_call
  dsimp only
  have h1 := fwd_in_phase_spec c.params.enum [] []
    (if c.hasSelf then [Ev.selfIn] else [])
  simp only [List.append_nil, List.length_nil] at h1
  rw [h1]
  simp only [List.drop_left]
  cases hv : c.retVoid with
  | true =>
    simp [List.take_succ_cons, List.reverse_cons, List.append_assoc]
  | false =>
    simp only [Bool.false_eq_true, if_false]
    have hins : insertBelow (cas_of c.params.enum).length LV.retV
        (cas_of c.params.enum) = cas_of c.params.enum ++ [LV.retV] := by
      unfold insertBelow
      rw [List.take_length, List.drop_length]
    rw [hins]
    simp [List.take_succ_cons, List.reverse_cons, List.append_assoc]

lemma callable_call_none (c : CCallable)
    (hwf : ∀ ip ∈ c.params.enum, ip.2.callerAlloc = true → ip.2.dir = .dout) :
    callable_call c none =
      { results :=
          if c.retVoid = true ∧ out_vals_of c.params.enum = [] ∧ c.throws = true
          then [LV.boolV true]
          else (if c.retVoid then [] else [LV.retV]) ++
            (out_vals_of c.params.enum).reverse,
        tr := (if c.hasSelf then [Ev.selfIn] else []) ++
          fwd_in_evs c.params.enum ++ [Ev.unlockEv, Ev.nativeEv, Ev.lockEv] ++
          (if c.retVoid then [] else [Ev.retOut]) ++
          fwd_out_evs c.params.enum } := by
  unfold callable_call
  dsimp only
  have h1 := fwd_in_phase_spec c.params.enum [] []
    (if c.hasSelf then [Ev.selfIn] else [])
  simp only [List.append_nil, List.length_nil] at h1
  rw [h1]
  simp only [List.drop_left]
  cases hv : c.retVoid with
  | true =>
    simp only [if_true]
    have h2 := fwd_out_phase_spec c.params.enum [] 0
      ((if c.hasSelf then [Ev.selfIn] else []) ++ fwd_in_evs c.params.enum ++
        [Ev.unlockEv, Ev.nativeEv, Ev.lockEv]) hwf
    simp only [List.append_nil, Nat.zero_add] at h2
    rw [h2]
    by_cases ht : (out_vals_of c.params.enum).length = 0 ∧ c.throws = true
    · rcases ht with ⟨hlen, hth⟩
      have hnil : out_vals_of c.params.enum = [] := List.length_eq_zero.1 hlen
      simp [hnil, hth, List.append_assoc]
    · rw [if_neg ht]
      have hc2 : ¬(True ∧ out_vals_of c.params.enum = [] ∧ c.throws = true) := by
        intro hcon
        exact ht ⟨by simp [hcon.2.1], hcon.2.2⟩
      simp only [List.take_length, List.append_assoc]
      simp [hc2]
  | false =>
    simp only [Bool.false_eq_true, if_false]
    have hins : insertBelow (cas_of c.params.enum).length LV.retV
        (cas_of c.params.enum) = cas_of c.params.enum ++ [LV.retV] := by
      unfold insertBelow
      rw [List.take_length, List.drop_length]
    rw [hins]
    have h2 := fwd_out_phase_spec c.params.enum [LV.retV] 1
      ((if c.hasSelf then [Ev.selfIn] else []) ++ fwd_in_evs c.params.enum ++
        [Ev.unlockEv, Ev.nativeEv, Ev.lockEv] ++ [Ev.retOut]) hwf
    rw [h2]
    have hne : ¬(1 + (out_vals_of c.params.enum).length = 0 ∧ c.throws = true) := by
      rintro ⟨hcon, _⟩; omega
    rw [if_neg hne]
    have hlen : (out_vals_of c.params.enum ++ [LV.retV]).length =
        1 + (out_vals_of c.params.enum).length := by
      simp [Nat.add_comm]
    rw [← hlen, List.take_length]
    simp [List.reverse_append, List.append_assoc]

lemma mem_of_mem_enum {α : Type} {l : List α} {ip : Nat × α}
    (h : ip ∈ l.enum) : ip.2 ∈ l := by
  have h2 := List.mem_map_of_mem Prod.snd h
  rwa [List.enum_map_snd] at h2

lemma exists_enum_of_mem {α : Type} {l : List α} {x : α} (h : x ∈ l) :
    ∃ i, (i, x) ∈ l.enum := by
  have h2 : x ∈ l.enum.map Prod.snd := by rwa [List.enum_map_snd]
  rcases List.mem_map.1 h2 with ⟨⟨i, y⟩, hip, he⟩
  cases he
  exact ⟨i, hip⟩

lemma out_vals_of_eq_nil (l : List (Nat × CParam)) :
    out_vals_of l = [] ↔
      ∀ ip ∈ l, ip.2.internal = true ∨ ip.2.dir = .din := by
  induction l with
  | nil => simp [out_vals_of]
  | cons ip l ih =>
    simp only [out_vals_of, List.append_eq_nil, ih, List.mem_cons]
    constructor
    · rintro ⟨h1, h2⟩ jp hjp
      rcases hjp with rfl | hjp
      · by_contra hcon
        push_neg at hcon
        obtain ⟨hi, hd⟩ := hcon
        rw [if_pos ⟨by simp [hi], hd⟩] at h2
        exact absurd h2 (List.cons_ne_nil _ _)
      · exact h1 jp hjp
    · intro h
      refine ⟨fun jp hjp => h jp (Or.inr hjp), ?_⟩
      rcases h ip (Or.inl rfl) with hi | hd
      · rw [if_neg (by rintro ⟨hni, _⟩; simp [hi] at hni)]
      · rw [if_neg (by rintro ⟨_, hnd⟩; exact hnd hd)]

lemma cas_of_eq_nil (l : List (Nat × CParam))
    (h : ∀ ip ∈ l, ip.2.internal = false → ip.2.dir = .dout →
      ip.2.callerAlloc = false) :
    cas_of l = [] := by
  induction l with
  | nil => rfl
  | cons ip l ih =>
    have h' : ∀ jp ∈ l, jp.2.internal = false → jp.2.dir = .dout →
        jp.2.callerAlloc = false :=
      fun jp hjp => h jp (List.mem_cons_of_mem _ hjp)
    simp only [cas_of, ih h', List.nil_append]
    rw [if_neg]
    rintro ⟨hi, hd, hc⟩
    have := h ip (List.mem_cons_self _ _) (by simpa using hi) hd
    rw [this] at hc
    cases hc

lemma mem_out_vals_of : ∀ (l : List (Nat × CParam)) (v : LV),
    v ∈ out_vals_of l → ∃ i, v = LV.callerAlloc i ∨ v = LV.outV i := by
  intro l
  induction l with
  | nil => intro v h; cases h
  | cons ip l ih =>
    intro v h
    simp only [out_vals_of] at h
    rcases List.mem_append.1 h with h1 | h1
    · exact ih v h1
    · split at h1
      · have hv := List.mem_singleton.1 h1
        by_cases hca : ip.2.callerAlloc = true
        · rw [if_pos hca] at hv; exact ⟨ip.1, Or.inl hv⟩
        · rw [if_neg hca] at hv; exact ⟨ip.1, Or.inr hv⟩
      · cases h1

lemma mem_fwd_in_evs : ∀ (l : List (Nat × CParam)) (e : Ev),
    e ∈ fwd_in_evs l → ∃ i, e = Ev.argIn i ∨ e = Ev.allocOut i := by
  intro l
  induction l with
  | nil => intro e h; cases h
  | cons ip l ih =>
    intro e h
    simp only [fwd_in_evs] at h
    rcases List.mem_append.1 h with h1 | h1
    · split at h1
      · cases h1
      · split at h1
        · exact ⟨ip.1, Or.inl (List.mem_singleton.1 h1)⟩
        · split at h1
          · exact ⟨ip.1, Or.inr (List.mem_singleton.1 h1)⟩
          · cases h1
    · exact ih e h1

lemma mem_fwd_out_evs : ∀ (l : List (Nat × CParam)) (e : Ev),
    e ∈ fwd_out_evs l → ∃ i, e = Ev.reuseOut i ∨ e = Ev.argOut i := by
  intro l
  induction l with
  | nil => intro e h; cases h
  | cons ip l ih =>
    intro e h
    simp only [fwd_out_evs] at h
    rcases List.mem_append.1 h with h1 | h1
    · split at h1
      · cases h1
      · split at h1
        · exact ⟨ip.1, Or.inl (List.mem_singleton.1 h1)⟩
        · exact ⟨ip.1, Or.inr (List.mem_singleton.1 h1)⟩
    · exact ih e h1

/-- A throwing callable with a non-void return and one caller-allocated
`out` parameter. -/
def c2ca : CCallable :=
  { hasSelf := false, throws := true, retVoid := false,
    params := [{ internal := false, dir := .dout, transfer := .tnothing,
                 callerAlloc := true, inTemps := 0, outTemps := 0 }],
    retTemps := 0 }

/-- C2 (counterexample): when the native call reports an error on a
callable with a non-void return type and a caller-allocated output
parameter, the leading result is the pre-created caller-allocated output —
an output parameter — and the real return value is lost from the result
(callable.c:498 slides the return value below the caller-allocated values,
and callable.c:513 returns only the top `nret + 2` values). -/
theorem c2_counterexample :
    (callable_call c2ca (some ("boom", 5))).results =
      [LV.callerAlloc 0, LV.msgV "boom", LV.codeV 5] ∧
    LV.retV ∉ (callable_call c2ca (some ("boom", 5))).results := by
  decide

/-- C2 (amended): when the native call populates the error slot and the
callable has a void return type or no caller-allocated output parameters,
the result is exactly the falsy leading value (or the real return value
when the return type is non-void) followed by the error message and code;
no output or inout parameter value appears in the result and no output
parameter is marshalled on this path. -/
theorem c2_error_result (c : CCallable) (m : String) (k : Int)
    (h : c.retVoid = true ∨
      ∀ p ∈ c.params, p.internal = false → p.dir = .dout →
        p.callerAlloc = false) :
    (callable_call c (some (m, k))).results =
      (if c.retVoid then [LV.boolV false] else [LV.retV]) ++
        [LV.msgV m, LV.codeV k] ∧
    (∀ i, LV.outV i ∉ (callable_call c (some (m, k))).results) ∧
    (∀ i, Ev.argOut i ∉ (callable_call c (some (m, k))).tr ∧
      Ev.reuseOut i ∉ (callable_call c (some (m, k))).tr) := by
  rw [callable_call_some]
  have hres : (if c.retVoid then [LV.boolV false, LV.msgV m, LV.codeV k]
      else ((cas_of c.params.enum ++ [LV.retV]).take 1).reverse ++
        [LV.msgV m, LV.codeV k]) =
      (if c.retVoid then [LV.boolV false] else [LV.retV]) ++
        [LV.msgV m, LV.codeV k] := by
    rcases h with hv | hnca
    · simp [hv]
    · have hnil : cas_of c.params.enum = [] :=
        cas_of_eq_nil _ (fun ip hip => hnca ip.2 (mem_of_mem_enum hip))
      rcases hv : c.retVoid with _ | _
      · simp [hnil]
      · simp
  refine ⟨hres, ?_, ?_⟩
  · intro i
    rw [hres]
    intro hmem
    rcases List.mem_append.1 hmem with h1 | h1
    · split at h1 <;> simp_all
    · simp at h1
  · intro i
    constructor <;>
      · intro hmem
        simp only [List.mem_append] at hmem
        rcases hmem with ((h1 | h1) | h1) | h1
        · split at h1 <;> simp_all
        · rcases mem_fwd_in_evs _ _ h1 with ⟨j, hj | hj⟩ <;> simp at hj
        · simp at h1
        · split at h1 <;> simp_all

/-- A throwing callable with a void return and a single plain `in`
parameter (so an error-free call produces no other result). -/
def c7w : CCallable :=
  { hasSelf := false, throws := true, retVoid := true,
    params := [{ internal := false, dir := .din, transfer := .tnothing,
                 callerAlloc := false, inTemps := 1, outTemps := 0 }],
    retTemps := 0 }

/-- C7: a forward invocation's result is the synthetic truthy leading value
(and nothing else) exactly when the callable declares error reporting, the
native call did not report an error, and no other result (non-void return
value or non-internal out/inout parameter) was produced; an errored call
never produces it. -/
theorem c7_synthetic_true (c : CCallable)
    (hwf : ∀ p ∈ c.params, p.callerAlloc = true → p.dir = .dout) :
    ((callable_call c none).results = [LV.boolV true] ↔
      (c.throws = true ∧ c.retVoid = true ∧
        ∀ p ∈ c.params, p.internal = false → p.dir = .din)) ∧
    ∀ m k, (callable_call c (some (m, k))).results ≠ [LV.boolV true] := by
  have hwf' : ∀ ip ∈ c.params.enum, ip.2.callerAlloc = true →
      ip.2.dir = .dout :=
    fun ip hip => hwf ip.2 (mem_of_mem_enum hip)
  constructor
  · rw [callable_call_none c hwf']
    dsimp only
    constructor
    · intro hres
      by_cases hcond : c.retVoid = true ∧ out_vals_of c.params.enum = [] ∧
          c.throws = true
      · refine ⟨hcond.2.2, hcond.1, ?_⟩
        intro p hp hpint
        obtain ⟨i, hip⟩ := exists_enum_of_mem hp
        rcases (out_vals_of_eq_nil _).1 hcond.2.1 (i, p) hip with h | h
        · rw [hpint] at h; cases h
        · exact h
      · rw [if_neg hcond] at hres
        have hmem : LV.boolV true ∈ (if c.retVoid then [] else [LV.retV]) ++
            (out_vals_of c.params.enum).reverse := by
          rw [hres]; simp
        rcases List.mem_append.1 hmem with h1 | h1
        · split at h1 <;> simp_all
        · rw [List.mem_reverse] at h1
          rcases mem_out_vals_of _ _ h1 with ⟨i, hi | hi⟩ <;> simp at hi
    · rintro ⟨hth, hv, hall⟩
      have hnil : out_vals_of c.params.enum = [] := by
        rw [out_vals_of_eq_nil]
        intro ip hip
        by_cases hi : ip.2.internal = true
        · exact Or.inl hi
        · exact Or.inr (hall ip.2 (mem_of_mem_enum hip) (by simpa using hi))
      rw [if_pos ⟨hv, hnil, hth⟩]
  · intro m k
    rw [callable_call_some]
    dsimp only
    split <;> intro heq <;> have hl := congrArg List.length heq <;>
      simp at hl

/-! ## Trampoline: trace shapes -/

lemma mem_cb_in_evs : ∀ (l : List (Nat × CParam)) (e : Ev),
    e ∈ cb_in_evs l → ∃ i, e = Ev.argToLua i := by
  intro l
  induction l with
  | nil => intro e h; cases h
  | cons ip l ih =>
    intro e h
    simp only [cb_in_evs] at h
    rcases List.mem_append.1 h with h1 | h1
    · split at h1
      · exact ⟨ip.1, List.mem_singleton.1 h1⟩
      · cases h1
    · exact ih e h1

lemma mem_cb_out_evs : ∀ (l : List (Nat × CParam)) (e : Ev),
    e ∈ cb_out_evs l →
      ∃ i, e = Ev.argFromLua i ∨ e = Ev.warnEv i ∨ e = Ev.dropEv i := by
  intro l
  induction l with
  | nil => intro e h; cases h
  | cons ip l ih =>
    intro e h
    simp only [cb_out_evs] at h
    rcases List.mem_append.1 h with h1 | h1
    · split at h1
      · rcases List.mem_append.1 h1 with h2 | h2
        · exact ⟨ip.1, Or.inl (List.mem_singleton.1 h2)⟩
        · split at h2
          · simp only [List.mem_cons, List.mem_singleton] at h2
            rcases h2 with rfl | rfl | h2
            · exact ⟨ip.1, Or.inr (Or.inl rfl)⟩
            · exact ⟨ip.1, Or.inr (Or.inr rfl)⟩
            · cases h2
          · cases h2
      · cases h1
    · exact ih e h1

/-- The trace of a trampoline invocation whose target returned normally. -/
lemma closure_callback_tr_ok (c : CCallable) (call : Bool) (a : Bool) :
    (closure_callback c call .ok a).tr =
      [Ev.lockEv] ++ (if c.hasSelf then [Ev.selfToLua] else []) ++
        cb_in_evs c.params.enum ++ [Ev.invokeEv] ++
        (if ¬c.retVoid then
          [Ev.retFromLua] ++
            (if c.retTemps ≠ 0 then [Ev.warnRetEv, Ev.dropRetEv] else [])
        else []) ++
        cb_out_evs c.params.enum ++
        (if a then [Ev.schedDestroyEv] else []) ++ [Ev.unlockEv] := rfl

/-- C6: for a coroutine (resume-mode) target, a resume that yields is
treated exactly like a normal return (the whole invocation result,
marshalling of outputs included, is identical, and the target is entered
exactly once — no re-entry); a resume that fails is re-raised in the
calling context iff the callable does not declare error reporting, and
otherwise is converted into a native error (message, code 1) written
through the trailing error slot. -/
theorem c6_resume_semantics (c : CCallable) (a : Bool) (m : String) :
    closure_callback c false .yield a = closure_callback c false .ok a ∧
    (closure_callback c false .yield a).tr.count Ev.invokeEv = 1 ∧
    ((closure_callback c false (.err m) a).raised.isSome = true ↔
      c.throws = false) ∧
    (c.throws = true →
      (closure_callback c false (.err m) a).errSlot = some (m, 1)) := by
  have hyo : closure_callback c false .yield a =
      closure_callback c false .ok a := rfl
  refine ⟨hyo, ?_, ?_, ?_⟩
  · rw [hyo, closure_callback_tr_ok]
    have h1 : (cb_in_evs c.params.enum).count Ev.invokeEv = 0 :=
      List.count_eq_zero.2 (fun h => by
        rcases mem_cb_in_evs _ _ h with ⟨i, hi⟩; simp at hi)
    have h2 : (cb_out_evs c.params.enum).count Ev.invokeEv = 0 :=
      List.count_eq_zero.2 (fun h => by
        rcases mem_cb_out_evs _ _ h with ⟨i, hi | hi | hi⟩ <;> simp at hi)
    split_ifs <;> simp [List.count_append, h1, h2]
  · cases hth : c.throws <;> simp [closure_callback, run_target, hth]
  · intro hth
    simp [closure_callback, run_target, hth]

/-! ## Trampoline: output marshalling order and warnings -/

/-- The output-marshalling events proper (without the warnings), in
declaration order. -/
def cb_out_marshals : List (Nat × CParam) → List Ev
  | [] => []
  | ip :: l =>
    (if ¬ip.2.internal ∧ ip.2.dir ≠ .din then [Ev.argFromLua ip.1] else []) ++
      cb_out_marshals l

lemma sublist_mid {α : Type} {x m : List α} (p q r : List α)
    (h : List.Sublist x m) : List.Sublist x (((p ++ m) ++ q) ++ r) :=
  ((h.trans (List.sublist_append_right p m)).trans
    (List.sublist_append_left (p ++ m) q)).trans
    (List.sublist_append_left ((p ++ m) ++ q) r)

lemma cb_out_marshals_sublist (l : List (Nat × CParam)) :
    List.Sublist (cb_out_marshals l) (cb_out_evs l) := by
  induction l with
  | nil => simp [cb_out_marshals, cb_out_evs]
  | cons ip l ih =>
    simp only [cb_out_marshals, cb_out_evs]
    by_cases hg : ¬ip.2.internal = true ∧ ip.2.dir ≠ .din
    · rw [if_pos hg, if_pos hg, List.append_assoc]
      exact (List.Sublist.refl _).append
        (ih.trans (List.sublist_append_right _ _))
    · rw [if_neg hg, if_neg hg]
      simpa using ih

lemma warn_triple_sublist : ∀ (l : List (Nat × CParam)) (ip : Nat × CParam),
    ip ∈ l → ip.2.internal = false → ip.2.dir ≠ .din → ip.2.outTemps ≠ 0 →
    List.Sublist [Ev.argFromLua ip.1, Ev.warnEv ip.1, Ev.dropEv ip.1]
      (cb_out_evs l) := by
  intro l
  induction l with
  | nil => intro ip h; cases h
  | cons jp l ih =>
    intro ip hmem hint hdir htemps
    simp only [cb_out_evs]
    rcases List.mem_cons.1 hmem with rfl | hmem
    · rw [if_pos ⟨by simp [hint], hdir⟩, if_pos htemps]
      exact List.sublist_append_left _ _
    · exact (ih ip hmem hint hdir htemps).trans
        (List.sublist_append_right _ _)

/-- C9: when the trampoline's target returns normally, the invocation
completes (it is never aborted), the non-internal out/inout parameters are
marshalled in declaration order, and every such parameter whose
ownership-transfer rule is "none" but whose marshalling produced
unconsumed temporaries gets a logged warning followed by the discard of the
excess, with marshalling continuing afterwards. -/
theorem c9_transfer_none_excess (c : CCallable) (call : Bool) (a : Bool) :
    (closure_callback c call .ok a).raised = none ∧
    List.Sublist (cb_out_marshals c.params.enum)
      (closure_callback c call .ok a).tr ∧
    (∀ ip ∈ c.params.enum, ip.2.internal = false → ip.2.dir ≠ .din →
      ip.2.transfer = .tnothing → ip.2.outTemps ≠ 0 →
      List.Sublist [Ev.argFromLua ip.1, Ev.warnEv ip.1, Ev.dropEv ip.1]
        (closure_callback c call .ok a).tr) := by
  refine ⟨rfl, ?_, ?_⟩
  · rw [closure_callback_tr_ok]
    exact sublist_mid _ _ _ (cb_out_marshals_sublist c.params.enum)
  · intro ip hmem hint hdir _ htemps
    rw [closure_callback_tr_ok]
    exact sublist_mid _ _ _
      (warn_triple_sublist c.params.enum ip hmem hint hdir htemps)

/-! ## Concurrency guard discipline -/

lemma fwd_in_phase_tr : ∀ (l : List (Nat × CParam)) (st : FwdSt),
    (fwd_in_phase l st).tr = st.tr ++ fwd_in_evs l := by
  intro l
  induction l with
  | nil => intro st; simp [fwd_in_phase, fwd_in_evs]
  | cons ip l ih =>
    intro st
    simp only [fwd_in_phase, fwd_in_evs]
    rw [ih]
    unfold fwd_in_step
    by_cases h1 : ip.2.internal = true <;>
      by_cases h2 : ip.2.dir = .dout <;>
      by_cases h3 : ip.2.callerAlloc = true <;>
      simp [h1, h2, h3, List.append_assoc]

lemma fwd_out_phase_tr : ∀ (l : List (Nat × CParam)) (st : FwdSt),
    (fwd_out_phase l st).tr = st.tr ++ fwd_out_evs l := by
  intro l
  induction l with
  | nil => intro st; simp [fwd_out_phase, fwd_out_evs]
  | cons ip l ih =>
    intro st
    simp only [fwd_out_phase, fwd_out_evs]
    rw [ih]
    unfold fwd_out_step
    by_cases h1 : ip.2.internal = true <;>
      by_cases h2 : ip.2.dir = .din <;>
      by_cases h3 : ip.2.callerAlloc = true <;>
      simp [h1, h2, h3, List.append_assoc]

lemma tr_ite (P : Prop) [Decidable P] (a b : FwdSt) :
    (if P then a else b).tr = if P then a.tr else b.tr := by
  split <;> rfl

/-- The trace of a forward invocation, independent of the marshalling
oracles' stack effects. -/
lemma callable_call_tr (c : CCallable) (err : Option (String × Int)) :
    (callable_call c err).tr =
      (if c.hasSelf then [Ev.selfIn] else []) ++ fwd_in_evs c.params.enum ++
        [Ev.unlockEv, Ev.nativeEv, Ev.lockEv] ++
        (if c.retVoid then [] else [Ev.retOut]) ++
        (match err with
         | some _ => []
         | none => fwd_out_evs c.params.enum) := by
  unfold callable_call
  dsimp only
  rcases err with _ | ⟨m, k⟩ <;>
    simp only [tr_ite, ite_self, fwd_out_phase_tr, fwd_in_phase_tr] <;>
    cases hv : c.retVoid <;> simp [hv, List.append_assoc]

/-- No lock/unlock/native-call event occurs in the list. -/
def guard_free (l : List Ev) : Prop :=
  ∀ e ∈ l, e ≠ Ev.unlockEv ∧ e ≠ Ev.lockEv ∧ e ≠ Ev.nativeEv

lemma guard_free_append {l₁ l₂ : List Ev} (h1 : guard_free l₁)
    (h2 : guard_free l₂) : guard_free (l₁ ++ l₂) :=
  fun e he => (List.mem_append.1 he).elim (h1 e) (h2 e)

lemma guard_free_ite (P : Prop) [Decidable P] {A B : List Ev}
    (h1 : guard_free A) (h2 : guard_free B) :
    guard_free (if P then A else B) := by
  split <;> assumption

lemma guard_free_nil : guard_free [] := fun e he => absurd he (List.not_mem_nil e)

lemma guard_free_fwd_in (l : List (Nat × CParam)) :
    guard_free (fwd_in_evs l) := by
  intro e he
  rcases mem_fwd_in_evs _ _ he with ⟨i, rfl | rfl⟩ <;> exact ⟨by simp, by simp, by simp⟩

lemma guard_free_fwd_out (l : List (Nat × CParam)) :
    guard_free (fwd_out_evs l) := by
  intro e he
  rcases mem_fwd_out_evs _ _ he with ⟨i, rfl | rfl⟩ <;> exact ⟨by simp, by simp, by simp⟩

lemma guard_free_cb_in (l : List (Nat × CParam)) :
    guard_free (cb_in_evs l) := by
  intro e he
  rcases mem_cb_in_evs _ _ he with ⟨i, rfl⟩
  exact ⟨by simp, by simp, by simp⟩

lemma guard_free_cb_out (l : List (Nat × CParam)) :
    guard_free (cb_out_evs l) := by
  intro e he
  rcases mem_cb_out_evs _ _ he with ⟨i, rfl | rfl | rfl⟩ <;>
    exact ⟨by simp, by simp, by simp⟩

lemma guard_free_explicit {l : List Ev}
    (h : ∀ e ∈ l, (e ≠ Ev.unlockEv ∧ e ≠ Ev.lockEv ∧ e ≠ Ev.nativeEv)) :
    guard_free l := h

/-- C5: forward invocation releases the mutex immediately before the
native call and re-acquires it immediately after (the three events are
adjacent), and no other lock, unlock or native-call event occurs; a
trampoline invocation begins by acquiring the mutex, and releases it as its
very last step before returning control to native code — and only then —
while an invocation that re-raises (leaves by `lua_error`) never reaches
the release. -/
theorem c5_guard_discipline :
    (∀ (c : CCallable) (err : Option (String × Int)),
      ∃ pre post, (callable_call c err).tr =
          pre ++ [Ev.unlockEv, Ev.nativeEv, Ev.lockEv] ++ post ∧
        guard_free pre ∧ guard_free post) ∧
    (∀ (c : CCallable) (call : Bool) (oc : Outcome) (a : Bool),
      (closure_callback c call oc a).tr.head? = some Ev.lockEv ∧
      ((closure_callback c call oc a).raised = none →
        ∃ body, (closure_callback c call oc a).tr =
            Ev.lockEv :: body ++ [Ev.unlockEv] ∧ guard_free body) ∧
      ((closure_callback c call oc a).raised ≠ none →
        Ev.unlockEv ∉ (closure_callback c call oc a).tr)) := by
  constructor
  · intro c err
    refine ⟨(if c.hasSelf then [Ev.selfIn] else []) ++ fwd_in_evs c.params.enum,
      (if c.retVoid then [] else [Ev.retOut]) ++
        (match err with
         | some _ => []
         | none => fwd_out_evs c.params.enum), ?_, ?_, ?_⟩
    · rw [callable_call_tr]
      simp [List.append_assoc]
    · exact guard_free_append
        (guard_free_ite _ (guard_free_explicit (by intro e he; simp at he; simp [he]))
          guard_free_nil)
        (guard_free_fwd_in _)
    · refine guard_free_append
        (guard_free_ite _ guard_free_nil
          (guard_free_explicit (by intro e he; simp at he; simp [he]))) ?_
      rcases err with _ | ⟨m, k⟩
      · exact guard_free_fwd_out _
      · exact guard_free_nil
  · intro c call oc a
    have gself : guard_free (if c.hasSelf then [Ev.selfToLua] else []) :=
      guard_free_ite _ (guard_free_explicit (by intro e he; simp at he; simp [he]))
        guard_free_nil
    have ginv : guard_free [Ev.invokeEv] :=
      guard_free_explicit (by intro e he; simp at he; simp [he])
    have gret : guard_free (if ¬c.retVoid then
        [Ev.retFromLua] ++
          (if c.retTemps ≠ 0 then [Ev.warnRetEv, Ev.dropRetEv] else [])
      else []) := by
      refine guard_free_ite _ (guard_free_append
        (guard_free_explicit (by intro e he; simp at he; simp [he]))
        (guard_free_ite _ (guard_free_explicit ?_) guard_free_nil)) guard_free_nil
      intro e he
      simp at he
      rcases he with rfl | rfl <;> exact ⟨by simp, by simp, by simp⟩
    have gdes : guard_free (if a then [Ev.schedDestroyEv] else []) :=
      guard_free_ite _ (guard_free_explicit (by intro e he; simp at he; simp [he]))
        guard_free_nil
    have gwr : guard_free [Ev.invokeEv, Ev.writeErrEv] := by
      refine guard_free_explicit ?_
      intro e he
      simp at he
      rcases he with rfl | rfl <;> exact ⟨by simp, by simp, by simp⟩
    rcases hrt : run_target call c.throws oc with msg | res
    · refine ⟨?_, ?_, ?_⟩
      · simp [closure_callback, hrt]
      · intro hr
        simp [closure_callback, hrt] at hr
      · intro _
        simp only [closure_callback, hrt]
        intro hmem
        rcases List.mem_append.1 hmem with h | h
        · rcases List.mem_append.1 h with h | h
          · rcases List.mem_append.1 h with h | h
            · simp at h
            · exact (gself _ h).1 rfl
          · exact (guard_free_cb_in c.params.enum _ h).1 rfl
        · simp at h
    · rcases res with _ | m2
      · refine ⟨?_, ?_, ?_⟩
        · simp [closure_callback, hrt]
        · intro _
          refine ⟨(if c.hasSelf then [Ev.selfToLua] else []) ++
            cb_in_evs c.params.enum ++ [Ev.invokeEv] ++
            (if ¬c.retVoid then
              [Ev.retFromLua] ++
                (if c.retTemps ≠ 0 then [Ev.warnRetEv, Ev.dropRetEv] else [])
            else []) ++
            cb_out_evs c.params.enum ++
            (if a then [Ev.schedDestroyEv] else []), ?_, ?_⟩
          · simp only [closure_callback, hrt]
            simp [List.append_assoc]
          · exact guard_free_append (guard_free_append (guard_free_append
              (guard_free_append (guard_free_append gself
                (guard_free_cb_in _)) ginv) gret)
              (guard_free_cb_out _)) gdes
        · intro hr
          simp [closure_callback, hrt] at hr
      · refine ⟨?_, ?_, ?_⟩
        · simp [closure_callback, hrt]
        · intro _
          refine ⟨(if c.hasSelf then [Ev.selfToLua] else []) ++
            cb_in_evs c.params.enum ++ [Ev.invokeEv, Ev.writeErrEv] ++
            (if a then [Ev.schedDestroyEv] else []), ?_, ?_⟩
          · simp only [closure_callback, hrt]
            simp [List.append_assoc]
          · exact guard_free_append (guard_free_append (guard_free_append
              gself (guard_free_cb_in _)) gwr) gdes
        · intro hr
          simp [closure_callback, hrt] at hr

/-! ## Call plan cache -/

lemma string_data_inj {s t : String} (h : s.data = t.data) : s = t := by
  cases s with
  | mk d1 =>
    cases t with
    | mk d2 => exact congrArg String.mk (by simpa using h)

lemma descKey_congr {d₁ d₂ : CallableDesc} (hk : d₁.kind = d₂.kind)
    (hn : d₁.fullName = d₂.fullName) : descKey d₁ = descKey d₂ := by
  simp [descKey, hk, hn]

lemma reprData_one : (Nat.repr 1).data = ['1'] := by decide

lemma reprData_two : (Nat.repr 2).data = ['2'] := by decide

lemma reprData_thirteen : (Nat.repr 13).data = ['1', '3'] := by decide

lemma reprData_fourteen : (Nat.repr 14).data = ['1', '4'] := by decide

lemma descKey_inj (d₁ d₂ : CallableDesc) :
    descKey d₁ = descKey d₂ ↔
      (d₁.kind = d₂.kind ∧ d₁.fullName = d₂.fullName) := by
  constructor
  · intro h
    unfold descKey at h
    cases hk1 : d₁.kind <;> cases hk2 : d₂.kind <;>
      rw [hk1, hk2] at h <;>
      simp only [infoTypeCode, reprData_one, reprData_two, reprData_thirteen,
        reprData_fourteen] at h <;>
      simp at h <;>
      exact ⟨rfl, string_data_inj h⟩
  · rintro ⟨hk, hn⟩
    simp [descKey, hk, hn]

/-- C4: building a plan for the same callable description twice returns the
identical cached plan and leaves the cache untouched; any description with
the same kind and qualified name hits the same entry, and the composite
cache key determines — and is determined by — exactly the pair
(description kind, qualified name). -/
theorem c4_cache_identity :
    (∀ (d : CallableDesc) (s : BuildSt) (p : Plan) (s' : BuildSt),
      lgi_callable_create d s = .ok (p, s') →
        lgi_callable_create d s' = .ok (p, s') ∧
        ∀ d₂, d₂.kind = d.kind → d₂.fullName = d.fullName →
          lgi_callable_create d₂ s' = .ok (p, s')) ∧
    (∀ d₁ d₂ : CallableDesc, descKey d₁ = descKey d₂ ↔
      (d₁.kind = d₂.kind ∧ d₁.fullName = d₂.fullName)) := by
  constructor
  · intro d s p s' h
    have hfind : findCache (descKey d) s'.cache = some p := by
      rcases hc : findCache (descKey d) s.cache with _ | q
      · simp only [lgi_callable_create, hc] at h
        split_ifs at h with h1 h2 <;>
          first
            | (simp at h; done)
            | (simp only [Except.ok.injEq, Prod.mk.injEq] at h
               obtain ⟨hp, hs⟩ := h
               rw [← hs, ← hp]
               simp [findCache])
      · simp only [lgi_callable_create, hc] at h
        simp only [Except.ok.injEq, Prod.mk.injEq] at h
        obtain ⟨hp, hs⟩ := h
        rw [← hs, ← hp]
        exact hc
    refine ⟨?_, ?_⟩
    · simp only [lgi_callable_create, hfind]
    · intro d₂ hk hn
      simp only [lgi_callable_create, descKey_congr hk hn, hfind]
  · exact descKey_inj

/-- C8: when plan construction fails (unresolvable symbol or rejected
generic-call signature), the cache has no entry for the description's key —
a later build attempt for the same key therefore constructs a fresh plan
(its identity is the untouched allocation counter) — and the raised error
carries the callable's identification (the composite key string for symbol
failures, the qualified name for signature-compilation failures). -/
theorem c8_build_failure :
    ∀ (d : CallableDesc) (s : BuildSt) (e : BuildErr),
      lgi_callable_create d s = .error e →
        findCache (descKey d) s.cache = none ∧
        (e = .symbolNotFound (descKey d) d.symbol ∨
          e = .cifFailed d.fullName) ∧
        (∀ (d₂ : CallableDesc) (p : Plan) (s₂ : BuildSt),
          descKey d₂ = descKey d →
          lgi_callable_create d₂ s = .ok (p, s₂) → p.id = s.nextId) := by
  intro d s e h
  rcases hc : findCache (descKey d) s.cache with _ | q
  · refine ⟨rfl, ?_, ?_⟩
    · simp only [lgi_callable_create, hc] at h
      split_ifs at h with h1 h2 <;>
        first
          | (simp at h; done)
          | (simp only [Except.error.injEq] at h
             exact Or.inl h.symm)
          | (simp only [Except.error.injEq] at h
             exact Or.inr h.symm)
    · intro d₂ p s₂ hkey hok
      have hc₂ : findCache (descKey d₂) s.cache = none := by
        rw [hkey]; exact hc
      simp only [lgi_callable_create, hc₂] at hok
      split_ifs at hok with h1 h2 <;>
        first
          | (simp at hok; done)
          | (simp only [Except.ok.injEq, Prod.mk.injEq] at hok
             obtain ⟨hp, _⟩ := hok
             rw [← hp])
  · simp only [lgi_callable_create, hc] at h
    simp at h

/-! ## Concrete witnesses -/

/-- A throwing callable with a non-void return and one plain `out`
parameter (no caller allocation). -/
def c2w : CCallable :=
  { hasSelf := false, throws := true, retVoid := false,
    params := [{ internal := false, dir := .dout, transfer := .tnothing,
                 callerAlloc := false, inTemps := 0, outTemps := 0 }],
    retTemps := 0 }

theorem c2_error_result_witness :
    (callable_call c2w (some ("eek", 7))).results =
      [LV.retV, LV.msgV "eek", LV.codeV 7] := by
  have h := (c2_error_result c2w "eek" 7 (Or.inr (by decide))).1
  simpa [c2w] using h

/-- A plain callback description with no arguments. -/
def c4demo : CallableDesc :=
  { kind := .callback, fullName := "Demo.Target", symbol := "demo_target",
    isMethod := false, isConstructor := false, throwsFlag := false,
    canResolveSymbol := true, ffiPrepOk := true,
    ret := tiPlain .tVoid, retTransfer := .tnothing, args := [] }

def c4plan : Plan := { id := 0, hasSelf := false, throws := false, nargs := 0 }

def c4st : BuildSt := { cache := [(descKey c4demo, c4plan)], nextId := 1 }

theorem c4_cache_identity_witness :
    lgi_callable_create c4demo c4st = .ok (c4plan, c4st) :=
  (c4_cache_identity.1 c4demo { cache := [], nextId := 0 } c4plan c4st
    rfl).1

/-- A throwing method-style callable with no declared parameters. -/
def c5c : CCallable :=
  { hasSelf := true, throws := true, retVoid := false, params := [],
    retTemps := 0 }

theorem c5_guard_discipline_witness :
    (∃ pre post, (callable_call c5c none).tr =
        pre ++ [Ev.unlockEv, Ev.nativeEv, Ev.lockEv] ++ post ∧
      guard_free pre ∧ guard_free post) ∧
    (closure_callback c5c true .ok false).tr.head? = some Ev.lockEv ∧
    (∃ body, (closure_callback c5c true .ok false).tr =
        Ev.lockEv :: body ++ [Ev.unlockEv] ∧ guard_free body) :=
  ⟨c5_guard_discipline.1 c5c none,
   (c5_guard_discipline.2 c5c true .ok false).1,
   (c5_guard_discipline.2 c5c true .ok false).2.1 (by decide)⟩

/-- A throwing callable with a void return, used as a resume target. -/
def c6c : CCallable :=
  { hasSelf := false, throws := true, retVoid := true, params := [],
    retTemps := 0 }

theorem c6_resume_semantics_witness :
    (closure_callback c6c false (.err "bad") true).errSlot =
      some ("bad", 1) :=
  (c6_resume_semantics c6c true "bad").2.2.2 (by decide)

theorem c7_synthetic_true_witness :
    (callable_call c7w none).results = [LV.boolV true] :=
  ((c7_synthetic_true c7w (by decide)).1).2 (by decide)

/-- A function description whose symbol does not resolve. -/
def c8demo : CallableDesc :=
  { kind := .function, fullName := "Gio.boom", symbol := "gio_boom",
    isMethod := false, isConstructor := false, throwsFlag := true,
    canResolveSymbol := false, ffiPrepOk := true,
    ret := tiPlain .tVoid, retTransfer := .tnothing, args := [] }

theorem c8_build_failure_witness :
    findCache (descKey c8demo) (BuildSt.mk [] 0).cache = none :=
  (c8_build_failure c8demo { cache := [], nextId := 0 }
    (.symbolNotFound (descKey c8demo) c8demo.symbol) rfl).1

/-- An `out` parameter whose Lua→C marshalling leaves two unconsumed
temporaries. -/
def c9p : CParam :=
  { internal := false, dir := .dout, transfer := .tnothing,
    callerAlloc := false, inTemps := 0, outTemps := 2 }

def c9c : CCallable :=
  { hasSelf := false, throws := false, retVoid := true, params := [c9p],
    retTemps := 0 }

theorem c9_transfer_none_excess_witness :
    (closure_callback c9c true .ok false).raised = none ∧
    List.Sublist [Ev.argFromLua 0, Ev.warnEv 0, Ev.dropEv 0]
      (closure_callback c9c true .ok false).tr :=
  ⟨(c9_transfer_none_excess c9c true false).1,
   (c9_transfer_none_excess c9c true false).2.2 (0, c9p) (by decide)
     (by decide) (by decide) (by decide) (by decide)⟩

end LgiCallable
